import Mathlib

/-!
Verification development for the cognitive core of the Clippy application
(hierarchical RAG memory store, working-memory buffer, OODA agent scheduler,
and GRPO-style memory optimizer).

The JavaScript source is embedded shallowly:

* `HierarchicalRAGComplete` (rag_complete_integration.js) becomes `RagState`
  with pure state-passing functions `addNode`, `getNode`, `addChildToParent`,
  `updateAccessStats`, `searchInLayer`, `traverseSearch`.  The LanceDB table
  is a list of rows in insertion order (`table.add` appends), the in-memory
  node cache is an association list keyed by node id.  Embedding vectors are
  lists of rationals and the vector-search distance function is a parameter.
  JavaScript floating point arithmetic is modelled by exact rationals.
* `WorkingMemory` (continuous_agent.js) becomes `WMState` with `wmAdd`,
  `wmCleanup`, `calculateImportance`, `shouldRemember`, `wmGetRecent`.
* The `ContinuousAgent` OODA cycle (continuous_agent.js) is modelled with the
  phases that do not depend on the LLM completion port; LLM-dependent
  continuations are explicit function parameters.
* `MemoryOptimizer` and `ExperienceLibrary` (memory_optimizer.js) become the
  operation-group generators, the execution functions, the group-relative
  advantage computation (over the reals, `Math.sqrt` as `Real.sqrt`), and the
  serialization round trip.

JavaScript quirks are modelled faithfully where they are visible to a claim:
truthiness of `0` and of the empty string, the `x || default` idiom, and the
append-only LanceDB usage (updates add a second row for the same id).
-/

namespace Clippy

/-! ## MemoryStore data model (rag_complete_integration.js)

A LanceDB row of the `memories` table.  `children_ids` is stored in the
source as a JSON string; the JSON.parse / JSON.stringify round trip is
modelled by holding the list directly. -/

structure MemRow where
  id : String
  layer : Int
  vector : List ℚ
  content : String
  context : String
  parentId : Option String
  childrenIds : List String
  createdAt : Int
  lastAccessed : Int
  accessCount : Nat
deriving DecidableEq

/-- Options of `HierarchicalRAGComplete` that the modelled functions read. -/
structure RagOptions where
  maxLayers : Int
  maxChildren : Nat
  maxTokensPerItem : Nat
deriving DecidableEq

/-- State of one `HierarchicalRAGComplete` instance: the persisted table
(rows in insertion order; `table.add` only ever appends) and the in-memory
`nodeCache` as an association list keyed by node id.  The LRU size cap of the
cache (`maxCacheSize = 1000`) only evicts cache entries and is not modelled;
no claim depends on cache eviction. -/
structure RagState where
  opts : RagOptions
  table : List MemRow
  cache : List (String × MemRow)
deriving DecidableEq

/-- Lookup in the node cache (`nodeCache.get`). -/
def cacheLookup : List (String × MemRow) → String → Option MemRow
  | [], _ => none
  | e :: rest, k => if e.1 = k then some e.2 else cacheLookup rest k

/-- Map-style insert (`nodeCache.set`): overwrite in place when the key
exists, append otherwise. -/
def cacheSet : List (String × MemRow) → String → MemRow → List (String × MemRow)
  | [], k, v => [(k, v)]
  | e :: rest, k, v => if e.1 = k then (k, v) :: rest else e :: cacheSet rest k v

/-- Map-style delete (`nodeCache.delete`).  JavaScript Map keys are unique,
so deleting key `k` removes the (unique) entry for `k`; we model it as
removing every entry under `k`. -/
def cacheErase : List (String × MemRow) → String → List (String × MemRow)
  | [], _ => []
  | e :: rest, k => if e.1 = k then cacheErase rest k else e :: cacheErase rest k

/-- The `cacheNode` method: insert a node into the cache under its id. -/
def cacheNode (s : RagState) (node : MemRow) : RagState :=
  { s with cache := cacheSet s.cache node.id node }

/-- Equality query on the table (`query().where(id = ...).limit(1)`), taking
the first row in insertion order. -/
def findRowById (table : List MemRow) (k : String) : Option MemRow :=
  table.find? (fun r => decide (r.id = k))

/-- The `getNode` method: cache first, then the table, caching a row found in
the table.  Returns the node (if any) together with the updated state. -/
def getNode (s : RagState) (nodeId : String) : Option MemRow × RagState :=
  match cacheLookup s.cache nodeId with
  | some n => (some n, s)
  | none =>
    match findRowById s.table nodeId with
    | some r => (some r, cacheNode s r)
    | none => (none, s)

/-- The `truncateText` method. -/
def truncateText (text : String) (maxLength : Nat) : String :=
  if text.length ≤ maxLength then text
  else (text.take (maxLength - 3)) ++ "..."

/-- JavaScript truthiness of an optional string (`if (parentId)`): `null`
and the empty string are falsy. -/
def optTruthy : Option String → Bool
  | some p => decide (p ≠ "")
  | none => false

/-- The `addChildToParent` method: re-read the parent, and when the child id
is not yet recorded, append a fresh row for the parent with the extended
children list and a bumped `last_accessed`; the cached copy keeps the old
`last_accessed` (lines 245-248 of the source omit it). -/
def addChildToParent (s : RagState) (parentId childId : String) (now : Int) : RagState :=
  match getNode s parentId with
  | (none, s1) => s1
  | (some parent, s1) =>
    if childId ∈ parent.childrenIds then s1
    else
      let updated := { parent with
        childrenIds := parent.childrenIds ++ [childId], lastAccessed := now }
      let cachedCopy := { parent with childrenIds := parent.childrenIds ++ [childId] }
      cacheNode { s1 with table := s1.table ++ [updated] } cachedCopy

/-- Validation phase of `addNode` for the parent (lines 167-181): parent must
exist, sit exactly one layer above, and have spare child capacity.  A falsy
`parentId` skips validation, matching `if (parentId)`. -/
def validateParent (s : RagState) (layer : Int) (parentId : Option String) :
    Except String Unit × RagState :=
  match parentId with
  | none => (Except.ok (), s)
  | some p =>
    if p = "" then (Except.ok (), s)
    else
      match getNode s p with
      | (none, s1) => (Except.error ("Parent node " ++ p ++ " not found"), s1)
      | (some parent, s1) =>
        if parent.layer ≠ layer - 1 then
          (Except.error "Parent must be at layer one above", s1)
        else if s.opts.maxChildren ≤ parent.childrenIds.length then
          (Except.error "Parent already has maxChildren children", s1)
        else (Except.ok (), s1)

/-- Node record built by `addNode` (lines 197-208 of the source): content and
context are truncated, the children list starts empty, and the access count
starts at 1. -/
def mkInsertedNode (s : RagState) (content context : String) (layer : Int)
    (parentId : Option String) (embedding : List ℚ) (freshId : String)
    (now : Int) : MemRow :=
  { id := freshId, layer := layer, vector := embedding
    content := truncateText content s.opts.maxTokensPerItem
    context := truncateText context 256
    parentId := parentId, childrenIds := []
    createdAt := now, lastAccessed := now, accessCount := 1 }

/-- The `addNode` method.  The embedding vector, the generated fresh id and
`Date.now()` are parameters (they come from the embedding port, the id
generator and the clock).  The result pairs the thrown-or-returned value with
the state, mirroring that the JavaScript object is mutated in place even when
an error is thrown. -/
def addNode (s : RagState) (content context : String) (layer : Int)
    (parentId : Option String) (embedding : List ℚ) (freshId : String)
    (now : Int) : Except String MemRow × RagState :=
  if layer < 0 ∨ s.opts.maxLayers ≤ layer then
    (Except.error "Layer must be in range", s)
  else
    match validateParent s layer parentId with
    | (Except.error e, s1) => (Except.error e, s1)
    | (Except.ok _, s1) =>
      let node := mkInsertedNode s content context layer parentId embedding freshId now
      let s2 := { s1 with table := s1.table ++ [node] }
      let s3 := if optTruthy parentId then
          addChildToParent s2 (parentId.getD "") freshId now
        else s2
      (Except.ok node, cacheNode s3 node)

/-- The `updateAccessStats` method: re-read the node and append a fresh row
with bumped access statistics.  The old row is not removed and the bumped row
is not cached (the source calls no `cacheNode` here). -/
def updateAccessStats (s : RagState) (nodeId : String) (now : Int) : RagState :=
  match getNode s nodeId with
  | (none, s1) => s1
  | (some n, s1) =>
    { s1 with table := s1.table ++
        [{ n with lastAccessed := now, accessCount := n.accessCount + 1 }] }

/-- Number of table rows carrying a given node id. -/
def rowCountById (table : List MemRow) (k : String) : Nat :=
  (table.filter (fun r => decide (r.id = k))).length

/-! ## Layer search and greedy traversal -/

/-- Row filter of `searchInLayer`: match the layer, and when `parentId` is
truthy also match the parent (the where-clause gains the conjunct only for a
truthy `parentId`). -/
def layerFilter (layer : Int) (parentId : Option String) (r : MemRow) : Bool :=
  decide (r.layer = layer) &&
    (match parentId with
     | some p => if p = "" then true else decide (r.parentId = some p)
     | none => true)

/-- The `searchInLayer` method.  The vector index is modelled by sorting the
matching rows by distance to the query embedding (ascending); `dist` maps a
row vector to its distance from the query.  The engine sort is modelled by a
stable insertion sort.  After taking the `topK` nearest rows, the access
statistics of each result are bumped (each bump appends a row). -/
def searchInLayer (dist : List ℚ → ℚ) (s : RagState) (layer : Int)
    (topK : Nat) (parentId : Option String) (now : Int) : List MemRow × RagState :=
  let rows := s.table.filter (layerFilter layer parentId)
  let sorted := rows.insertionSort (fun a b => dist a.vector ≤ dist b.vector)
  let results := sorted.take topK
  (results, results.foldl (fun st r => updateAccessStats st r.id now) s)

/-- The `calculateSimilarity` method: `_distance ? 1 - _distance : 0.5`.
A zero distance is falsy in JavaScript, hence the 1/2 branch. -/
def calculateSimilarity (d : ℚ) : ℚ :=
  if d = 0 then 1/2 else 1 - d

/-- One ranked result of `traverseSearch`. -/
structure TraverseHit where
  row : MemRow
  depth : Int
  similarity : ℚ
deriving DecidableEq

/-- Loop body of `traverseSearch`: at each layer search with `topK = 3`
scoped to the current parent; stop at the first layer with no results,
otherwise record every result of the layer and descend with the single best
match as the next parent.  `fuel` is the number of remaining layers, i.e.
`min maxDepth maxLayers - currentLayer`. -/
def traverseLoop (dist : List ℚ → ℚ) : Nat → Int → Option String → Int →
    RagState → List TraverseHit × RagState
  | 0, _, _, _, s => ([], s)
  | fuel + 1, layer, parent, now, s =>
    match searchInLayer dist s layer 3 parent now with
    | ([], s1) => ([], s1)
    | (r :: rs, s1) =>
      let hits := (r :: rs).map
        (fun x => { row := x, depth := layer, similarity := calculateSimilarity (dist x.vector) })
      let rest := traverseLoop dist fuel (layer + 1) (some r.id) now s1
      (hits ++ rest.1, rest.2)

/-- The `traverseSearch` method: greedy descent from layer 0, running while
`currentLayer < min maxDepth maxLayers`. -/
def traverseSearch (dist : List ℚ → ℚ) (s : RagState) (maxDepth : Int)
    (now : Int) : List TraverseHit × RagState :=
  traverseLoop dist (min maxDepth s.opts.maxLayers).toNat 0 none now s

/-! ## WorkingMemory (continuous_agent.js, class WorkingMemory)

An item handed to `WorkingMemory.add` is a free-form record `{type, data}`;
`calculateImportance` reads `data.type` and `data.data` when the outer type is
`event`.  `RawItem` flattens exactly the payload fields the source reads:
the inner event type, the truthiness of `data.needsResponse`, and the
`trigger` and `action` strings. -/

structure RawItem where
  type : String
  dataType : String
  needsResponse : Bool
  trigger : Option String
  action : Option String
deriving DecidableEq

/-- A buffered working-memory item: the raw payload spread together with the
computed importance, the insertion timestamp and an access counter. -/
structure WMItem where
  raw : RawItem
  importance : ℚ
  timestamp : Int
  accessCount : Nat
deriving DecidableEq

/-- State of a `WorkingMemory` instance.  `hasLongTerm` is the truthiness of
`this.longTermMemory`; `attention.background` is never used by the source and
is omitted. -/
structure WMState where
  maxSize : Nat
  items : List WMItem
  hasLongTerm : Bool
  attentionPrimary : Option RawItem
  attentionSecondary : List RawItem
deriving DecidableEq

/-- The `calculateImportance` method: base 0.5, plus type-specific bonuses,
capped at 1. -/
def calculateImportance (item : RawItem) : ℚ :=
  let eventType := if item.type = "event" then item.dataType else item.type
  let base : ℚ := 1/2
  let score : ℚ :=
    if eventType = "user_message" then
      base + 2/5 + (if item.needsResponse then 1/5 else 0)
    else if eventType = "agent_thinking" then
      base + 1/10 + (if item.trigger = some "user_message" then 1/5 else 0)
    else if eventType = "agent_action" then
      base + 1/5 + (if item.action = some "respond_to_user" then 1/5 else 0)
    else base
  min score 1

/-- Blended ranking score used by the `cleanup` comparator:
`(importance || 0.5) * 0.7 + (1 - (now - (timestamp || now)) / 600000) * 0.3`.
The `||` fallbacks fire exactly on the falsy value 0. -/
def wmScore (now : Int) (it : WMItem) : ℚ :=
  let imp : ℚ := if it.importance = 0 then 1/2 else it.importance
  let ts : Int := if it.timestamp = 0 then now else it.timestamp
  imp * (7/10) + (1 - ((now - ts : Int) : ℚ) / 600000) * (3/10)

/-- Sorting step of `cleanup`.  `Array.prototype.sort` with the comparator
`scoreB - scoreA` is a stable descending sort by score; `Date.now()` is read
once per cleanup as `now`.  A stable sort with a total preorder comparator is
unique, so the stable insertion sort models the engine sort exactly. -/
def sortItems (now : Int) (items : List WMItem) : List WMItem :=
  items.insertionSort (fun a b => wmScore now b ≤ wmScore now a)

/-- The `shouldRemember` method, with the JavaScript truthiness guards
(`item.importance && ...`, `item.accessCount && ...`) made explicit. -/
def shouldRemember (it : WMItem) : Bool :=
  ((decide (it.importance ≠ 0)) && (decide ((4:ℚ)/5 < it.importance)))
  || ((decide (it.accessCount ≠ 0)) && (decide (3 < it.accessCount)))
  || ((decide (it.raw.type = "agent_thinking")) && (decide ((3:ℚ)/5 < it.importance)))

/-- Retention rule exactly as the specification words it: importance above
0.8, or access count above 3, or an `agent_thinking` item with importance
above 0.6. -/
def retentionRule (it : WMItem) : Prop :=
  (4:ℚ)/5 < it.importance ∨ 3 < it.accessCount
  ∨ (it.raw.type = "agent_thinking" ∧ (3:ℚ)/5 < it.importance)

/-- The `cleanup` method: sort all items by the blended score (descending),
truncate to `maxSize` when the buffer exceeds it, and offer each pruned item
that passes `shouldRemember` to the long-term store (when one is attached).
Returns the new state, the pruned items, and the items offered to the
long-term store via `saveToLongTermMemory`. -/
def wmCleanup (now : Int) (s : WMState) : WMState × List WMItem × List WMItem :=
  if s.maxSize < (sortItems now s.items).length then
    ({ s with items := (sortItems now s.items).take s.maxSize },
      (sortItems now s.items).drop s.maxSize,
      if s.hasLongTerm then
        ((sortItems now s.items).drop s.maxSize).filter shouldRemember
      else [])
  else ({ s with items := sortItems now s.items }, [], [])

/-- The buffered record built at the top of `add`: the raw payload spread
with the computed importance, the timestamp, and a zero access count. -/
def wmNewItem (now : Int) (raw : RawItem) : WMItem :=
  { raw := raw, importance := calculateImportance raw, timestamp := now,
    accessCount := 0 }

/-- The `unshift` step of `add`. -/
def wmInsert (now : Int) (s : WMState) (raw : RawItem) : WMState :=
  { s with items := wmNewItem now raw :: s.items }

/-- The attention update of `add`: primary focus above importance 0.8,
otherwise a rolling secondary list of at most 3 above importance 0.5. -/
def wmAttention (s : WMState) (raw : RawItem) (imp : ℚ) : WMState :=
  if (4:ℚ)/5 < imp then { s with attentionPrimary := some raw }
  else if (1:ℚ)/2 < imp then
    { s with attentionSecondary :=
        if 3 < (s.attentionSecondary ++ [raw]).length then
          (s.attentionSecondary ++ [raw]).drop 1
        else s.attentionSecondary ++ [raw] }
  else s

/-- The `add` method: compute importance, prepend the new item, update the
attention record, then run `cleanup`. -/
def wmAdd (now : Int) (s : WMState) (raw : RawItem) : WMState × List WMItem × List WMItem :=
  wmCleanup now (wmAttention (wmInsert now s raw) raw (calculateImportance raw))

/-- The `getRecent` method: return the first `n` items and bump the access
counter of each returned item (the items are aliased, so the buffered copies
are bumped too). -/
def wmGetRecent (n : Nat) (s : WMState) : List WMItem × WMState :=
  let touched := (s.items.take n).map (fun it => { it with accessCount := it.accessCount + 1 })
  (touched, { s with items := touched ++ s.items.drop n })

/-! ## ContinuousAgent OODA cycle (continuous_agent.js)

The phases that depend on the LLM completion port (ORID analysis of an
observation, LLM decision making, the deep branch of dialectic thinking, and
the non-wait act handlers) are passed in as explicit continuation functions:
any behaviour of the external port is allowed.  Randomness (`Math.random()`)
is passed in as the draw values the source consumes. -/

structure EventRec where
  type : String
  priority : String
deriving DecidableEq

/-- One observation produced by the `observe` phase. -/
inductive ObsRec
  | ev (e : EventRec)
  | internalTrigger
  | attentionFocus (raw : RawItem)
deriving DecidableEq

/-- Result of the orient phase as far as `decide` inspects it. -/
structure Orientation where
  shouldAct : Bool
deriving DecidableEq

/-- Decision of the decide phase: `wait` or some acting decision. -/
inductive Decision
  | wait
  | acting (action : String)
deriving DecidableEq

/-- Agent configuration (constructor lines 1374-1378).  The source reads
`options.cycleDelay || 500` and `options.thinkingProbability || 0.05`: an
explicit 0 is falsy and silently replaced by the default. -/
structure AgentConfig where
  cycleDelay : ℚ
  thinkingProbability : ℚ
deriving DecidableEq

/-- Constructor of the agent configuration from the options object. -/
def mkAgentConfig (cycleDelayOpt thinkOpt : Option ℚ) : AgentConfig :=
  { cycleDelay :=
      match cycleDelayOpt with
      | some d => if d = 0 then 500 else d
      | none => 500
    thinkingProbability :=
      match thinkOpt with
      | some p => if p = 0 then 1/20 else p
      | none => 1/20 }

/-- Agent state touched by the modelled cycle phases. -/
structure AgentState where
  wm : WMState
  eventQueue : List EventRec
  lastThinkTime : Int
  config : AgentConfig
deriving DecidableEq

/-- The `observe` phase: pop one queued event, then the two implicit
triggers — no thought for more than 30 s, and a primary attention focus. -/
def observe (now : Int) (st : AgentState) : List ObsRec × AgentState :=
  let popped :=
    match st.eventQueue with
    | [] => (([] : List ObsRec), st)
    | e :: rest => ([ObsRec.ev e], { st with eventQueue := rest })
  let obs2 : List ObsRec :=
    if 30000 < now - st.lastThinkTime then [ObsRec.internalTrigger] else []
  let obs3 : List ObsRec :=
    match st.wm.attentionPrimary with
    | some raw => [ObsRec.attentionFocus raw]
    | none => []
  (popped.1 ++ obs2 ++ obs3, popped.2)

/-- The `dialecticThinking` method up to its guard: read the 10 most recent
items (which bumps their access counters) and bail out when fewer than 2 are
available; the LLM-driven remainder is the `deep` continuation. -/
def dialecticThinking (deep : WMState → WMState × Option Orientation)
    (wm : WMState) : WMState × Option Orientation :=
  let recent := wmGetRecent 10 wm
  if recent.1.length < 2 then (recent.2, none) else deep recent.2

/-- The `autonomousThinking` method: stamp `lastThinkTime`, pick one of 7
topics by the random draw, delegate the three dialectic topics (indices 4-6)
to `dialecticThinking`, and return no orientation for the other four. -/
def autonomousThinking (deep : WMState → WMState × Option Orientation)
    (now : Int) (topicIdx : Fin 7) (st : AgentState) :
    AgentState × Option Orientation :=
  let st1 := { st with lastThinkTime := now }
  if 4 ≤ (topicIdx : Nat) then
    let d := dialecticThinking deep st1.wm
    ({ st1 with wm := d.1 }, d.2)
  else (st1, none)

/-- The `orient` phase: with no observations, autonomous thinking fires when
the random draw is below the configured thinking probability; with
observations, the source selects the most important one, pushes it into
working memory and asks the LLM for an ORID analysis — that path is the
`orientObserved` continuation. -/
def orientPhase (deep : WMState → WMState × Option Orientation)
    (orientObserved : AgentState → List ObsRec → AgentState × Option Orientation)
    (now : Int) (draw : ℚ) (topicIdx : Fin 7)
    (st : AgentState) (observations : List ObsRec) :
    AgentState × Option Orientation :=
  match observations with
  | [] =>
    if draw < st.config.thinkingProbability then
      autonomousThinking deep now topicIdx st
    else (st, none)
  | o :: rest => orientObserved st (o :: rest)

/-- The `decide` phase: a missing orientation yields `wait` immediately; an
orientation is handed to the LLM-driven continuation. -/
def decidePhase (decideOriented : AgentState → Orientation → AgentState × Decision)
    (st : AgentState) : Option Orientation → AgentState × Decision
  | none => (st, Decision.wait)
  | some o => decideOriented st o

/-- The `act` phase: a `wait` decision returns without touching anything;
other decisions run the LLM and tool dispatcher continuation. -/
def actPhase (actNonWait : AgentState → Decision → AgentState)
    (st : AgentState) : Decision → AgentState
  | Decision.wait => st
  | d => actNonWait st d

/-- One full OODA cycle (the body of the `start` loop). -/
def oodaCycle (deep : WMState → WMState × Option Orientation)
    (orientObserved : AgentState → List ObsRec → AgentState × Option Orientation)
    (decideOriented : AgentState → Orientation → AgentState × Decision)
    (actNonWait : AgentState → Decision → AgentState)
    (now : Int) (draw : ℚ) (topicIdx : Fin 7) (st : AgentState) :
    AgentState × Decision :=
  let ob := observe now st
  let or := orientPhase deep orientObserved now draw topicIdx ob.2 ob.1
  let de := decidePhase decideOriented or.1 or.2
  (actPhase actNonWait de.1 de.2, de.2)

/-! ## MemoryOptimizer (memory_optimizer.js)

The LLM completion port `callModel` is modelled as
`Option (String → Option String)`: `none` is an absent model (the source then
uses deterministic fallbacks), `some f` is a model whose call on a prompt
either throws (`f prompt = none`, caught and replaced by the fallback) or
returns a completion text. -/

/-- A candidate operation (the records built by `_generateOperationGroup`
and `_heuristicOperations`). -/
structure Operation where
  operationType : String
  targetNodes : List String
  reasoning : String
  expectedBenefit : String
deriving DecidableEq

/-- A detected optimization problem, restricted to the fields the modelled
functions read.  The source field `overlapRatio` is held in `overlapSim`. -/
structure Problem where
  type : String
  nodes : List String
  overlapSim : Option ℚ
  layer : Int
deriving DecidableEq

/-- The `_heuristicOperations` fallback (no LLM): a fixed operation set keyed
by problem type, padded with `adjust_context` operations up to `groupSize`
and truncated to `groupSize`.  A JavaScript `nodes[0]` read past the end of
the array yields `undefined`; no detected problem has an empty node list, and
the model uses the empty string for that degenerate read. -/
def heuristicOperationGroup (groupSize : Nat) (problem : Problem) : List Operation :=
  let n0 := problem.nodes.getD 0 ""
  let n1 := problem.nodes.getD 1 ""
  let base : List Operation :=
    if problem.type = "high_overlap" ∧ 2 ≤ problem.nodes.length then
      [{ operationType := "merge", targetNodes := [n0, n1],
         reasoning := "High vector similarity between siblings",
         expectedBenefit := "Reduce redundancy" },
       { operationType := "adjust_context", targetNodes := [n0],
         reasoning := "Differentiate through better context",
         expectedBenefit := "Clearer distinction" },
       { operationType := "delete", targetNodes := [n1],
         reasoning := "Remove duplicate node",
         expectedBenefit := "Simplify structure" },
       { operationType := "move_layer", targetNodes := [n1],
         reasoning := "Move to different abstraction level",
         expectedBenefit := "Better hierarchy" }]
    else if problem.type = "poor_context" then
      [{ operationType := "adjust_context", targetNodes := [n0],
         reasoning := "Context too short",
         expectedBenefit := "Improved retrieval" },
       { operationType := "delete", targetNodes := [n0],
         reasoning := "Node without useful context",
         expectedBenefit := "Cleaner structure" }]
    else if problem.type = "layer_imbalance" then
      [{ operationType := "move_layer", targetNodes := [n0],
         reasoning := "Too many children for this node",
         expectedBenefit := "Better balance" },
       { operationType := "adjust_context", targetNodes := [n0],
         reasoning := "Clarify overloaded parent",
         expectedBenefit := "Better organization" }]
    else []
  let pad : Operation :=
    { operationType := "adjust_context", targetNodes := [n0],
      reasoning := "General improvement", expectedBenefit := "Marginal gain" }
  (base ++ List.replicate (groupSize - base.length) pad).take groupSize

/-- One operation object parsed out of the JSON array a model returned
(`operation_type`, `target_nodes`, ... fields after `JSON.parse`). -/
structure ParsedOp where
  opType : String
  targetNodes : List String
  reasoning : String
  expectedBenefit : String
deriving DecidableEq

/-- Lines 390-395 of `_generateOperationGroup`: the parsed model output is
truncated to `groupSize` and mapped field-by-field into operations — with no
validation of the operation type or of the target-node count. -/
def operationsFromParsed (groupSize : Nat) (parsed : List ParsedOp) : List Operation :=
  (parsed.take groupSize).map (fun op =>
    { operationType := op.opType, targetNodes := op.targetNodes,
      reasoning := op.reasoning, expectedBenefit := op.expectedBenefit })

/-- First-occurrence deduplication, as `[...new Set(xs)]`. -/
def jsSetDedup (l : List String) : List String :=
  l.foldl (fun acc x => if x ∈ acc then acc else acc ++ [x]) []

/-- Merge prompt of `_executeMerge`. -/
def mergePrompt (c1 c2 : String) : String :=
  "Merge these two memory entries into one concise entry (under 100 words):\n\n1. "
    ++ c1 ++ "\n2. " ++ c2 ++ "\n\nOutput ONLY the merged text."

/-- Merged content of `_executeMerge`: the model completion (trimmed) when a
model is attached and the call succeeds, otherwise the pipe-joined fallback. -/
def mergeContentOf (callModel : Option (String → Option String)) (c1 c2 : String) : String :=
  match callModel with
  | none => c1 ++ " | " ++ c2
  | some f =>
    match f (mergePrompt c1 c2) with
    | none => c1 ++ " | " ++ c2
    | some resp => resp.trim

/-- Merged context of `_executeMerge` (string truthiness: the empty string is
falsy). -/
def mergedContextOf (cx1 cx2 : String) : String :=
  if cx1 ≠ "" ∧ cx2 ≠ "" then (cx1 ++ "; " ++ cx2).take 256
  else if cx1 ≠ "" then cx1
  else if cx2 ≠ "" then cx2
  else "merged-memory"

/-- The `_executeMerge` method: bail out on fewer than 2 targets or missing
nodes, add a merged node via `addNode` (the embedding, fresh id and clock are
parameters, as in `addNode`), then re-parent the union of both children
lists.  The superseded nodes are not removed (the source comment: LanceDB has
no easy row delete, the merged node is relied on to win vector search). -/
def executeMerge (callModel : Option (String → Option String)) (s : RagState)
    (nodeIds : List String) (embedding : List ℚ) (freshId : String)
    (now : Int) : Except String RagState :=
  if nodeIds.length < 2 then Except.ok s
  else
    let id1 := nodeIds.getD 0 ""
    let id2 := nodeIds.getD 1 ""
    let g1 := getNode s id1
    let g2 := getNode g1.2 id2
    match g1.1, g2.1 with
    | some node1, some node2 =>
      let mergedContent := mergeContentOf callModel node1.content node2.content
      let mergedContext := mergedContextOf node1.context node2.context
      let mergedChildren := jsSetDedup (node1.childrenIds ++ node2.childrenIds)
      let added := addNode g2.2 mergedContent mergedContext node1.layer node1.parentId
        embedding freshId now
      match added.1 with
      | Except.error e => Except.error e
      | Except.ok merged =>
        Except.ok (mergedChildren.foldl (fun st childId =>
          let gc := getNode st childId
          match gc.1 with
          | none => gc.2
          | some child =>
            { gc.2 with table := gc.2.table ++ [{ child with parentId := some merged.id }] })
          added.2)
    | _, _ => Except.ok g2.2

/-- Context-adjustment prompt of `_executeAdjustContext`. -/
def adjustContextPrompt (node : MemRow) : String :=
  "Generate a concise context description (under 50 words) for this memory entry. "
    ++ "The context should explain when this memory is useful, what topics it relates to, "
    ++ "and what problems it helps solve.\n\nContent: " ++ node.content
    ++ "\nCurrent context: " ++ (if node.context = "" then "(none)" else node.context)
    ++ "\nLayer: " ++ toString node.layer
    ++ "\n\nOutput ONLY the new context description."

/-- The `_executeAdjustContext` method: for each target, re-read the node,
produce a new context (model completion or deterministic fallback), append an
updated row and cache the updated node (the cached copy keeps the old
`last_accessed`). -/
def executeAdjustContext (callModel : Option (String → Option String))
    (s : RagState) (nodeIds : List String) (now : Int) : RagState :=
  nodeIds.foldl (fun st nodeId =>
    let g := getNode st nodeId
    match g.1 with
    | none => g.2
    | some node =>
      let newContext :=
        match callModel with
        | none => node.content.take 40 ++ " — general knowledge"
        | some f =>
          match f (adjustContextPrompt node) with
          | none => node.content.take 40 ++ " — general knowledge"
          | some resp => resp.trim
      let updated := { node with context := newContext.take 256, lastAccessed := now }
      cacheNode { g.2 with table := g.2.table ++ [updated] }
        { node with context := newContext.take 256 }) s

/-- One iteration of the `_executeDelete` loop: never touch the root, skip
nodes that do not resolve or still have children, and otherwise remove the
node from the in-memory cache only — the source deliberately deletes no table
row. -/
def executeDeleteStep (s : RagState) (nodeId : String) : RagState :=
  if nodeId = "root" then s
  else
    let g := getNode s nodeId
    match g.1 with
    | none => g.2
    | some n =>
      if 0 < n.childrenIds.length then g.2
      else { g.2 with cache := cacheErase g.2.cache nodeId }

/-- The `_executeDelete` method over its target list. -/
def executeDelete (s : RagState) (nodeIds : List String) : RagState :=
  nodeIds.foldl executeDeleteStep s

/-- The `_executeOperation` dispatcher: `merge` and `adjust_context` run
their handlers, `move_layer` is deliberately only logged (no state change),
`delete` runs the cache-only removal, and an unknown type does nothing. -/
def executeOperation (callModel : Option (String → Option String)) (s : RagState)
    (op : Operation) (embedding : List ℚ) (freshId : String) (now : Int) :
    Except String RagState :=
  if op.operationType = "merge" then
    executeMerge callModel s op.targetNodes embedding freshId now
  else if op.operationType = "adjust_context" then
    Except.ok (executeAdjustContext callModel s op.targetNodes now)
  else if op.operationType = "move_layer" then
    Except.ok s
  else if op.operationType = "delete" then
    Except.ok (executeDelete s op.targetNodes)
  else Except.ok s

/-! ## Group-relative advantage (memory_optimizer.js, _computeGroupAdvantages)

The floating-point arithmetic of the source is modelled over the reals, with
`Math.sqrt` as `Real.sqrt`. -/

/-- Mean reward of a candidate group. -/
noncomputable def groupMean (rs : List ℝ) : ℝ := rs.sum / rs.length

/-- Population variance of the rewards, as the source computes it. -/
noncomputable def groupVariance (rs : List ℝ) : ℝ :=
  ((rs.map (fun r => (r - groupMean rs) ^ 2)).sum) / rs.length

open Classical in
/-- The `_computeGroupAdvantages` method: empty input gives an empty output;
a zero standard deviation gives the all-zero vector; otherwise each reward is
z-scored against the group mean and standard deviation. -/
noncomputable def computeGroupAdvantages (rewards : List ℝ) : List ℝ :=
  if rewards = [] then []
  else if Real.sqrt (groupVariance rewards) = 0 then rewards.map (fun _ => 0)
  else rewards.map (fun r => (r - groupMean rewards) / Real.sqrt (groupVariance rewards))

/-! ## ExperienceLibrary serialization (memory_optimizer.js) -/

/-- An example reference attached to an experience. -/
structure ExampleRec where
  problem : String
  bestOperation : String
  rewardDiff : ℚ
deriving DecidableEq

/-- One durable experience record. -/
structure Experience where
  pattern : String
  strategy : String
  avoid : String
  confidence : ℚ
  examples : List ExampleRec
deriving DecidableEq

/-- The experience library: the record list and the size cap (the
constructor default is 50). -/
structure ExperienceLibrary where
  experiences : List Experience
  maxExperiences : Nat
deriving DecidableEq

/-- Serialized form produced by `toJSON`: an object whose `experiences` field
may be absent when it was built by other means. -/
structure LibraryJSON where
  experiences : Option (List Experience)
deriving DecidableEq

/-- The `toJSON` method: `{ experiences: this.experiences }`. -/
def ExperienceLibrary.toJSON (lib : ExperienceLibrary) : LibraryJSON :=
  { experiences := some lib.experiences }

/-- The static `fromJSON`: build a fresh library (default cap 50) and adopt
the `experiences` field when the data object and the field are truthy (a
JavaScript array, even empty, is truthy). -/
def ExperienceLibrary.fromJSON (data : Option LibraryJSON) : ExperienceLibrary :=
  let lib : ExperienceLibrary := { experiences := [], maxExperiences := 50 }
  match data with
  | some d =>
    match d.experiences with
    | some exps => { lib with experiences := exps }
    | none => lib
  | none => lib

/-! ## Demonstration states used by the concrete witnesses -/

/-- A store root row for the demonstration store. -/
def demoRoot : MemRow :=
  { id := "root", layer := 0, vector := [0], content := "root node",
    context := "system root", parentId := none, childrenIds := [],
    createdAt := 0, lastAccessed := 0, accessCount := 0 }

/-- A freshly initialized demonstration store: one root row, empty cache. -/
def demoState : RagState :=
  { opts := { maxLayers := 10, maxChildren := 10, maxTokensPerItem := 512 },
    table := [demoRoot], cache := [] }

/-- The demonstration store after inserting one child of the root. -/
def storeA : RagState :=
  (addNode demoState "alpha" "alpha context" 1 (some "root") [1] "n1" 1).2

/-- The demonstration store after inserting a second child of the root. -/
def storeB : RagState :=
  (addNode storeA "beta" "beta context" 1 (some "root") [2] "n2" 2).2

/-- A constant distance function for the demonstration searches. -/
def demoDist : List ℚ → ℚ := fun _ => 1

/-- The demonstration store after inserting a grandchild under `n1`, so that
`n1` is no longer a leaf. -/
def storeC : RagState :=
  (addNode storeB "gamma" "gamma context" 2 (some "n1") [3] "n3" 3).2

/-- The `n1` row as it is visible (via the cache) after `storeC` was built:
the children list holds the grandchild, the cached copy keeps the original
`last_accessed`. -/
def n1WithChild : MemRow :=
  { id := "n1", layer := 1, vector := [1], content := "alpha",
    context := "alpha context", parentId := some "root",
    childrenIds := ["n3"], createdAt := 1, lastAccessed := 1, accessCount := 1 }

/-- Invariant of the node cache: every cached entry is keyed by the id of the
node it holds, and a row with that id exists in the table.  Every `cacheNode`
call in the source caches a node that was just read from or appended to the
table, so every reachable state satisfies it. -/
def cacheWellFormed (s : RagState) : Prop :=
  ∀ k n, cacheLookup s.cache k = some n → n.id = k ∧ ∃ r ∈ s.table, r.id = k

/-- A working-memory item above the retention importance threshold. -/
def c6Item : WMItem :=
  { raw := { type := "user_message", dataType := "", needsResponse := true,
             trigger := none, action := none },
    importance := 1, timestamp := 1, accessCount := 0 }

/-- A working-memory state with capacity 0, one buffered item, and a
long-term store attached. -/
def c6State : WMState :=
  { maxSize := 0, items := [c6Item], hasLongTerm := true,
    attentionPrimary := none, attentionSecondary := [] }

/-- A low-importance buffered item for the C7 cycle. -/
def c7Item : WMItem :=
  { raw := { type := "event", dataType := "system_idle", needsResponse := false,
             trigger := none, action := none },
    importance := 1/2, timestamp := 50, accessCount := 0 }

/-- The same item after one `getRecent` read bumped its access counter. -/
def c7ItemBumped : WMItem :=
  { raw := { type := "event", dataType := "system_idle", needsResponse := false,
             trigger := none, action := none },
    importance := 1/2, timestamp := 50, accessCount := 1 }

/-- Agent state for the C7 cycle: constructed with `thinkingProbability: 0`,
empty event queue, no implicit observation triggers (a recent thought and no
primary attention focus), one low-importance buffered item. -/
def c7State : AgentState :=
  { wm := { maxSize := 20, items := [c7Item], hasLongTerm := false,
            attentionPrimary := none, attentionSecondary := [] },
    eventQueue := [], lastThinkTime := 100,
    config := mkAgentConfig none (some 0) }

/-- The C7 agent state after the cycle: identical except for the bumped
access counter of the buffered item. -/
def c7StateAfter : AgentState :=
  { wm := { maxSize := 20, items := [c7ItemBumped], hasLongTerm := false,
            attentionPrimary := none, attentionSecondary := [] },
    eventQueue := [], lastThinkTime := 100,
    config := mkAgentConfig none (some 0) }

/-! ## Basic lemmas about the store -/

theorem findRowById_eq_some {table : List MemRow} {k : String} {r : MemRow}
    (h : findRowById table k = some r) : r.id = k ∧ r ∈ table := by
  unfold findRowById at h
  refine ⟨?_, List.mem_of_find?_eq_some h⟩
  have := List.find?_some h
  simpa using this

theorem getNode_table (s : RagState) (k : String) :
    (getNode s k).2.table = s.table := by
  unfold getNode
  cases h : cacheLookup s.cache k with
  | some n => rfl
  | none =>
    cases h2 : findRowById s.table k with
    | some r => rfl
    | none => rfl

theorem getNode_opts (s : RagState) (k : String) :
    (getNode s k).2.opts = s.opts := by
  unfold getNode
  cases h : cacheLookup s.cache k with
  | some n => rfl
  | none =>
    cases h2 : findRowById s.table k with
    | some r => rfl
    | none => rfl

/-- Cache lookups at other keys are unchanged by `cacheSet`. -/
theorem cacheLookup_set_ne (cache : List (String × MemRow)) (k : String)
    (v : MemRow) (j : String) (hne : j ≠ k) :
    cacheLookup (cacheSet cache k v) j = cacheLookup cache j := by
  induction cache with
  | nil =>
    simp only [cacheSet, cacheLookup]
    rw [if_neg (by simpa using Ne.symm hne)]
  | cons e rest ih =>
    by_cases h1 : e.1 = k
    · simp only [cacheSet, if_pos h1, cacheLookup]
      rw [if_neg (by simpa using Ne.symm hne), if_neg (by rw [h1]; simpa using Ne.symm hne)]
    · simp only [cacheSet, if_neg h1, cacheLookup]
      by_cases h2 : e.1 = j
      · rw [if_pos h2, if_pos h2]
      · rw [if_neg h2, if_neg h2, ih]

/-- Cache lookup at the inserted key returns the inserted value. -/
theorem cacheLookup_set_self (cache : List (String × MemRow)) (k : String)
    (v : MemRow) : cacheLookup (cacheSet cache k v) k = some v := by
  induction cache with
  | nil => simp [cacheSet, cacheLookup]
  | cons e rest ih =>
    by_cases h1 : e.1 = k
    · simp [cacheSet, h1, cacheLookup]
    · simp only [cacheSet, if_neg h1, cacheLookup, if_neg h1, ih]

theorem cacheLookup_erase_self (cache : List (String × MemRow)) (k : String) :
    cacheLookup (cacheErase cache k) k = none := by
  induction cache with
  | nil => simp [cacheErase, cacheLookup]
  | cons e rest ih =>
    by_cases h1 : e.1 = k
    · simpa [cacheErase, h1] using ih
    · simp only [cacheErase, if_neg h1, cacheLookup, if_neg h1, ih]

theorem cacheLookup_erase_ne (cache : List (String × MemRow)) (k j : String)
    (hne : j ≠ k) :
    cacheLookup (cacheErase cache k) j = cacheLookup cache j := by
  induction cache with
  | nil => simp [cacheErase, cacheLookup]
  | cons e rest ih =>
    by_cases h1 : e.1 = k
    · have h2 : e.1 ≠ j := by rw [h1]; exact Ne.symm hne
      simp only [cacheErase, if_pos h1, cacheLookup, if_neg h2, ih]
    · simp only [cacheErase, if_neg h1, cacheLookup]
      by_cases h2 : e.1 = j
      · rw [if_pos h2, if_pos h2]
      · rw [if_neg h2, if_neg h2, ih]

/-- Lookups at keys other than the queried one are unchanged by `getNode`. -/
theorem getNode_cacheLookup_ne (s : RagState) (k j : String) (hne : j ≠ k) :
    cacheLookup (getNode s k).2.cache j = cacheLookup s.cache j := by
  unfold getNode
  cases h : cacheLookup s.cache k with
  | some n => rfl
  | none =>
    cases h2 : findRowById s.table k with
    | some r =>
      have hid := (findRowById_eq_some h2).1
      simp only [cacheNode]
      rw [hid]
      exact cacheLookup_set_ne s.cache k r j hne
    | none => rfl

/-- When `getNode` finds a node, the node is afterwards in the cache under
the queried key. -/
theorem getNode_caches (s : RagState) (k : String) (n : MemRow)
    (h : (getNode s k).1 = some n) :
    cacheLookup (getNode s k).2.cache k = some n := by
  unfold getNode at h ⊢
  cases hc : cacheLookup s.cache k with
  | some m =>
    simp only [hc] at h ⊢
    exact h
  | none =>
    cases h2 : findRowById s.table k with
    | some r =>
      have hid := (findRowById_eq_some h2).1
      simp only [hc, h2] at h ⊢
      have hr : r = n := by simpa using h
      subst hr
      simp only [cacheNode]
      rw [hid]
      exact cacheLookup_set_self s.cache k r
    | none => simp [hc, h2] at h

theorem getNode_fst_of_cache (s : RagState) (k : String) (n : MemRow)
    (h : cacheLookup s.cache k = some n) : getNode s k = (some n, s) := by
  unfold getNode
  rw [h]

/-- Unfolding equation of `validateParent` for a truthy parent id that does
not resolve to a node. -/
theorem validateParent_missing (s : RagState) (layer : Int) (p : String)
    (hpne : p ≠ "") (h : (getNode s p).1 = none) :
    validateParent s layer (some p) =
      (Except.error ("Parent node " ++ p ++ " not found"), (getNode s p).2) := by
  simp only [validateParent]
  rw [if_neg hpne]
  rcases hg : getNode s p with ⟨fst, s1⟩
  rw [hg] at h
  simp only at h
  subst h
  rfl

/-- Unfolding equation of `validateParent` for a truthy parent id resolving
to a node. -/
theorem validateParent_found (s : RagState) (layer : Int) (p : String)
    (hpne : p ≠ "") (pn : MemRow) (h : (getNode s p).1 = some pn) :
    validateParent s layer (some p) =
      (if pn.layer ≠ layer - 1 then
        (Except.error "Parent must be at layer one above", (getNode s p).2)
      else if s.opts.maxChildren ≤ pn.childrenIds.length then
        (Except.error "Parent already has maxChildren children", (getNode s p).2)
      else (Except.ok (), (getNode s p).2)) := by
  simp only [validateParent]
  rw [if_neg hpne]
  rcases hg : getNode s p with ⟨fst, s1⟩
  rw [hg] at h
  simp only at h
  subst h
  rfl

/-- Unfolding equation of `addChildToParent` when the parent resolves. -/
theorem addChildToParent_eq (s : RagState) (p c : String) (now : Int)
    (pn : MemRow) (s1 : RagState) (h : getNode s p = (some pn, s1)) :
    addChildToParent s p c now =
      if c ∈ pn.childrenIds then s1
      else cacheNode { s1 with table := s1.table ++
            [{ pn with childrenIds := pn.childrenIds ++ [c], lastAccessed := now }] }
          { pn with childrenIds := pn.childrenIds ++ [c] } := by
  unfold addChildToParent
  rw [h]

/-- Lookup after `cacheNode` at a different key. -/
theorem cacheNode_lookup_ne (s : RagState) (v : MemRow) (j : String)
    (h : j ≠ v.id) :
    cacheLookup (cacheNode s v).cache j = cacheLookup s.cache j := by
  simp only [cacheNode]
  exact cacheLookup_set_ne _ _ _ _ h

/-- Lookup after `cacheNode` at the key of the cached node. -/
theorem cacheNode_lookup_self (s : RagState) (v : MemRow) :
    cacheLookup (cacheNode s v).cache v.id = some v := by
  simp only [cacheNode]
  exact cacheLookup_set_self _ _ _

/-! ## Claim C1: addNode validation -/

/-- C1: every `addNode` insertion either fails with a validation error and
persists nothing, or establishes the layer and parent-capacity invariants.
If the layer is out of `[0, maxLayers)`, or a (truthy) parent id does not
resolve, or the parent is not exactly one layer above, or the parent is
already at `maxChildren` capacity, the call returns an error and the
persisted table is unchanged.  On success the inserted node satisfies
`0 ≤ layer < maxLayers`, and when a parent id was given the parent visible
after the insertion has at most `maxChildren` children. -/
theorem addNode_validation_correct
    (s : RagState) (content context : String) (layer : Int)
    (parentId : Option String) (embedding : List ℚ) (freshId : String)
    (now : Int) :
    ((layer < 0 ∨ s.opts.maxLayers ≤ layer) →
      (∃ e, (addNode s content context layer parentId embedding freshId now).1 =
          Except.error e)
      ∧ (addNode s content context layer parentId embedding freshId now).2.table = s.table)
  ∧ (∀ p, parentId = some p → p ≠ "" →
      ((getNode s p).1 = none
        ∨ (∃ pn, (getNode s p).1 = some pn ∧ pn.layer ≠ layer - 1)
        ∨ (∃ pn, (getNode s p).1 = some pn ∧ s.opts.maxChildren ≤ pn.childrenIds.length)) →
      (∃ e, (addNode s content context layer parentId embedding freshId now).1 =
          Except.error e)
      ∧ (addNode s content context layer parentId embedding freshId now).2.table = s.table)
  ∧ (∀ node, (addNode s content context layer parentId embedding freshId now).1 =
        Except.ok node →
      0 ≤ node.layer ∧ node.layer < s.opts.maxLayers
      ∧ (∀ p, parentId = some p → p ≠ "" →
          ∃ pn, (getNode (addNode s content context layer parentId embedding freshId now).2 p).1
              = some pn
            ∧ pn.childrenIds.length ≤ s.opts.maxChildren)) := by
  refine ⟨?_, ?_, ?_⟩
  · intro hbad
    unfold addNode
    rw [if_pos hbad]
    exact ⟨⟨_, rfl⟩, rfl⟩
  · intro p hp hpne hdisj
    subst hp
    by_cases hbad : layer < 0 ∨ s.opts.maxLayers ≤ layer
    · unfold addNode
      rw [if_pos hbad]
      exact ⟨⟨_, rfl⟩, rfl⟩
    · have hv : ∃ e s1, validateParent s layer (some p) = (Except.error e, s1)
          ∧ s1.table = s.table := by
        have hs1 : (getNode s p).2.table = s.table := getNode_table s p
        rcases hdisj with hnone | ⟨pn, hpn, hlay⟩ | ⟨pn, hpn, hcap⟩
        · rw [validateParent_missing s layer p hpne hnone]
          exact ⟨_, _, rfl, hs1⟩
        · rw [validateParent_found s layer p hpne pn hpn, if_pos hlay]
          exact ⟨_, _, rfl, hs1⟩
        · rw [validateParent_found s layer p hpne pn hpn]
          by_cases hlay : pn.layer ≠ layer - 1
          · rw [if_pos hlay]
            exact ⟨_, _, rfl, hs1⟩
          · rw [if_neg hlay, if_pos hcap]
            exact ⟨_, _, rfl, hs1⟩
      obtain ⟨e, s1, hveq, hs1⟩ := hv
      unfold addNode
      rw [if_neg hbad, hveq]
      exact ⟨⟨e, rfl⟩, hs1⟩
  · intro node hok
    by_cases hbad : layer < 0 ∨ s.opts.maxLayers ≤ layer
    · unfold addNode at hok
      rw [if_pos hbad] at hok
      exact absurd hok (by simp)
    · have hbounds : 0 ≤ layer ∧ layer < s.opts.maxLayers := by
        push_neg at hbad
        omega
      unfold addNode at hok
      rw [if_neg hbad] at hok
      rcases hval : validateParent s layer parentId with ⟨vres, s1⟩
      rw [hval] at hok
      cases vres with
      | error e => exact absurd hok (by simp)
      | ok u =>
        simp only at hok
        injection hok with hnodeEq
        refine ⟨?_, ?_, ?_⟩
        · rw [← hnodeEq]; exact hbounds.1
        · rw [← hnodeEq]; exact hbounds.2
        intro p hp hpne
        subst hp
        -- extract the validated parent from the successful validation
        have hparent : ∃ pn, (getNode s p).1 = some pn ∧ (getNode s p).2 = s1
            ∧ pn.childrenIds.length < s.opts.maxChildren := by
          cases hfst : (getNode s p).1 with
          | none =>
            rw [validateParent_missing s layer p hpne hfst] at hval
            exact absurd hval (by simp)
          | some pn =>
            rw [validateParent_found s layer p hpne pn hfst] at hval
            by_cases hlay : pn.layer ≠ layer - 1
            · rw [if_pos hlay] at hval
              exact absurd hval (by simp)
            · rw [if_neg hlay] at hval
              by_cases hcap : s.opts.maxChildren ≤ pn.childrenIds.length
              · rw [if_pos hcap] at hval
                exact absurd hval (by simp)
              · rw [if_neg hcap] at hval
                have hs1 : (getNode s p).2 = s1 := congrArg Prod.snd hval
                exact ⟨pn, hfst ▸ rfl, hs1, Nat.lt_of_not_le hcap⟩
        obtain ⟨pn, hfst, hsnd, hcap⟩ := hparent
        have hgp : getNode s p = (some pn, s1) := by
          have heta : getNode s p = ((getNode s p).1, (getNode s p).2) := rfl
          rw [heta, hfst, hsnd]
        -- the state returned by addNode on the success path
        have htruthy : optTruthy (some p) = true := by
          simp [optTruthy, hpne]
        set nodeLit : MemRow :=
          mkInsertedNode s content context layer (some p) embedding freshId now
          with hnodeLit
        set s2 : RagState := { s1 with table := s1.table ++ [nodeLit] } with hs2
        have hfinal : (addNode s content context layer (some p) embedding freshId now).2 =
            cacheNode (addChildToParent s2 p freshId now) nodeLit := by
          unfold addNode
          rw [if_neg hbad, hval]
          simp only [htruthy, if_pos]
          rfl
        rw [hfinal]
        -- cache facts: the parent is cached in s1, hence in s2
        have hc1 : cacheLookup s1.cache p = some pn := by
          have hcc := getNode_caches s p pn hfst
          rw [hsnd] at hcc
          exact hcc
        have hc2 : cacheLookup s2.cache p = some pn := hc1
        have hg2 : getNode s2 p = (some pn, s2) := getNode_fst_of_cache s2 p pn hc2
        have hidlit : nodeLit.id = freshId := by rw [hnodeLit]; rfl
        have hchildlit : nodeLit.childrenIds = [] := by rw [hnodeLit]; rfl
        have hacp := addChildToParent_eq s2 p freshId now pn s2 hg2
        by_cases hfp : freshId = p
        · -- the fresh id collides with the parent id: the final cacheNode wins
          refine ⟨nodeLit, ?_, ?_⟩
          · have hlook : cacheLookup
                (cacheNode (addChildToParent s2 p freshId now) nodeLit).cache p
                = some nodeLit := by
              have hkey : nodeLit.id = p := by rw [hidlit]; exact hfp
              rw [← hkey]
              exact cacheNode_lookup_self _ nodeLit
            rw [getNode_fst_of_cache _ p nodeLit hlook]
          · rw [hchildlit]
            simp
        · -- generic case: look through the final cacheNode at key freshId
          have hstep : ∀ m, cacheLookup (addChildToParent s2 p freshId now).cache p = some m →
              m.childrenIds.length ≤ s.opts.maxChildren →
              ∃ pn2, (getNode (cacheNode (addChildToParent s2 p freshId now) nodeLit) p).1
                  = some pn2 ∧ pn2.childrenIds.length ≤ s.opts.maxChildren := by
            intro m hm hlen
            refine ⟨m, ?_, hlen⟩
            have hlook : cacheLookup
                (cacheNode (addChildToParent s2 p freshId now) nodeLit).cache p
                = some m := by
              rw [cacheNode_lookup_ne _ nodeLit p (by rw [hidlit]; exact Ne.symm hfp)]
              exact hm
            rw [getNode_fst_of_cache _ p m hlook]
          by_cases hmem : freshId ∈ pn.childrenIds
          · rw [if_pos hmem] at hacp
            refine hstep pn ?_ (Nat.le_of_lt hcap)
            rw [hacp]
            exact hc2
          · rw [if_neg hmem] at hacp
            by_cases hpid : pn.id = p
            · refine hstep { pn with childrenIds := pn.childrenIds ++ [freshId] } ?_ ?_
              · rw [hacp]
                have hkey : ({ pn with childrenIds := pn.childrenIds ++ [freshId] } : MemRow).id
                    = p := hpid
                rw [← hkey]
                exact cacheNode_lookup_self _ _
              · have hlen : ({ pn with childrenIds := pn.childrenIds ++ [freshId] } :
                    MemRow).childrenIds.length = pn.childrenIds.length + 1 := by simp
                omega
            · refine hstep pn ?_ (Nat.le_of_lt hcap)
              rw [hacp]
              rw [cacheNode_lookup_ne _ { pn with childrenIds := pn.childrenIds ++ [freshId] }
                p (fun hh => hpid hh.symm)]
              exact hc2

/-- Witness for C1: a concrete insertion of a layer-1 child under the root of
the demonstration store satisfies the success conclusions. -/
theorem addNode_validation_correct_witness :
    0 ≤ (mkInsertedNode demoState "hello" "ctx" 1 (some "root") [] "n1" 5).layer
    ∧ (mkInsertedNode demoState "hello" "ctx" 1 (some "root") [] "n1" 5).layer
        < demoState.opts.maxLayers
    ∧ ∃ pn, (getNode (addNode demoState "hello" "ctx" 1 (some "root") [] "n1" 5).2 "root").1
          = some pn ∧ pn.childrenIds.length ≤ demoState.opts.maxChildren := by
  have h := (addNode_validation_correct demoState "hello" "ctx" 1 (some "root") [] "n1" 5).2.2
    (mkInsertedNode demoState "hello" "ctx" 1 (some "root") [] "n1" 5) rfl
  exact ⟨h.1, h.2.1, h.2.2 "root" rfl (by decide)⟩

/-! ## Claim C2: the working-memory buffer is bounded and evicts the
lowest-scoring tail -/

theorem wmAttention_items (s : WMState) (raw : RawItem) (imp : ℚ) :
    (wmAttention s raw imp).items = s.items := by
  unfold wmAttention
  split_ifs <;> rfl

theorem wmAttention_maxSize (s : WMState) (raw : RawItem) (imp : ℚ) :
    (wmAttention s raw imp).maxSize = s.maxSize := by
  unfold wmAttention
  split_ifs <;> rfl

theorem sortItems_perm (now : Int) (items : List WMItem) :
    (sortItems now items).Perm items :=
  List.perm_insertionSort _ items

theorem sortItems_sorted (now : Int) (items : List WMItem) :
    List.Sorted (fun a b => wmScore now b ≤ wmScore now a) (sortItems now items) := by
  letI : IsTotal WMItem (fun a b => wmScore now b ≤ wmScore now a) :=
    ⟨fun a b => le_total _ _⟩
  letI : IsTrans WMItem (fun a b => wmScore now b ≤ wmScore now a) :=
    ⟨fun a b c h1 h2 => le_trans h2 h1⟩
  exact List.sorted_insertionSort _ items

/-- Behaviour of `cleanup` needed by C2: the buffer is bounded by `maxSize`,
kept and pruned items together are the sorted buffer, and every pruned item
scores at most every kept item. -/
theorem wmCleanup_spec (now : Int) (s : WMState) :
    (wmCleanup now s).1.items.length ≤ s.maxSize
  ∧ (wmCleanup now s).1.items ++ (wmCleanup now s).2.1 = sortItems now s.items
  ∧ ∀ e ∈ (wmCleanup now s).2.1, ∀ k ∈ (wmCleanup now s).1.items,
      wmScore now e ≤ wmScore now k := by
  unfold wmCleanup
  by_cases h : s.maxSize < (sortItems now s.items).length
  · rw [if_pos h]
    refine ⟨?_, ?_, ?_⟩
    · simp only [List.length_take]
      exact min_le_left _ _
    · exact List.take_append_drop _ _
    · intro e he k hk
      have hsorted := sortItems_sorted now s.items
      have hpw : List.Pairwise (fun a b => wmScore now b ≤ wmScore now a)
          ((sortItems now s.items).take s.maxSize ++ (sortItems now s.items).drop s.maxSize) :=
        (List.take_append_drop _ _).symm ▸ hsorted
      exact (List.pairwise_append.mp hpw).2.2 k hk e he
  · rw [if_neg h]
    push_neg at h
    refine ⟨?_, by simp, ?_⟩
    · calc (sortItems now s.items).length = s.items.length :=
        (sortItems_perm now s.items).length_eq
      _ ≤ s.maxSize := by
        rw [← (sortItems_perm now s.items).length_eq]
        exact h
    · intro e he
      simp at he

/-- C2: after every `add`, the buffer holds at most `maxSize` items; the
items evicted by the call are exactly the complement of the kept items
(kept and evicted together are a permutation of the new item plus the old
buffer), and every evicted item ranks at or below every kept item under the
blended score `0.7 * importance + 0.3 * recency-decay`. -/
theorem workingMemory_add_bound_evicts_lowest (now : Int) (s : WMState) (raw : RawItem) :
    (wmAdd now s raw).1.items.length ≤ s.maxSize
  ∧ ((wmAdd now s raw).1.items ++ (wmAdd now s raw).2.1).Perm
      (wmNewItem now raw :: s.items)
  ∧ ∀ e ∈ (wmAdd now s raw).2.1, ∀ k ∈ (wmAdd now s raw).1.items,
      wmScore now e ≤ wmScore now k := by
  have hspec := wmCleanup_spec now (wmAttention (wmInsert now s raw) raw (calculateImportance raw))
  have hms : (wmAttention (wmInsert now s raw) raw (calculateImportance raw)).maxSize
      = s.maxSize := by
    rw [wmAttention_maxSize]
    rfl
  have hit : (wmAttention (wmInsert now s raw) raw (calculateImportance raw)).items
      = wmNewItem now raw :: s.items := by
    rw [wmAttention_items]
    rfl
  refine ⟨?_, ?_, ?_⟩
  · have := hspec.1
    rw [hms] at this
    exact this
  · have hperm := sortItems_perm now
      (wmAttention (wmInsert now s raw) raw (calculateImportance raw)).items
    rw [hit] at hperm
    have h1 : ((wmAdd now s raw).1.items ++ (wmAdd now s raw).2.1)
        = sortItems now (wmNewItem now raw :: s.items) := by
      rw [← hit]
      exact hspec.2.1
    rw [h1]
    exact hperm
  · exact hspec.2.2

/-! ## Claim C6: eviction offers items to the long-term store exactly by the
retention rule -/

/-- The Boolean `shouldRemember` decides exactly the retention rule of the
specification: the JavaScript truthiness guards are redundant because a
positive importance or access-count threshold already rules out the falsy
value 0. -/
theorem shouldRemember_iff (it : WMItem) :
    shouldRemember it = true ↔ retentionRule it := by
  unfold shouldRemember retentionRule
  simp only [Bool.or_eq_true, Bool.and_eq_true, decide_eq_true_eq]
  constructor
  · rintro ((⟨-, h⟩ | ⟨-, h⟩) | ⟨h1, h2⟩)
    · exact Or.inl h
    · exact Or.inr (Or.inl h)
    · exact Or.inr (Or.inr ⟨h1, h2⟩)
  · rintro (h | h | ⟨h1, h2⟩)
    · exact Or.inl (Or.inl ⟨by positivity, h⟩)
    · exact Or.inl (Or.inr ⟨by omega, h⟩)
    · exact Or.inr ⟨h1, h2⟩

/-- C6: when a long-term store is attached, an item is offered to it by
`cleanup` exactly when the item was evicted by that cleanup and satisfies the
retention rule (importance above 0.8, or access count above 3, or an
`agent_thinking` item with importance above 0.6); evicted items failing the
rule are not offered. -/
theorem cleanup_offers_iff_retention (now : Int) (s : WMState)
    (hltm : s.hasLongTerm = true) (it : WMItem) :
    it ∈ (wmCleanup now s).2.2 ↔ it ∈ (wmCleanup now s).2.1 ∧ retentionRule it := by
  unfold wmCleanup
  by_cases h : s.maxSize < (sortItems now s.items).length
  · rw [if_pos h]
    simp only [hltm, if_true, List.mem_filter, shouldRemember_iff]
  · rw [if_neg h]
    simp

/-- Witness for C6: with capacity 0 and one high-importance item, the evicted
item is offered to the long-term store. -/
theorem cleanup_offers_iff_retention_witness :
    c6Item ∈ (wmCleanup 1 c6State).2.2 :=
  (cleanup_offers_iff_retention 1 c6State rfl c6Item).mpr
    ⟨by decide, Or.inl (by norm_num [c6Item])⟩

/-! ## Claim C3: traverseSearch result bound, early stop, and greedy parent
selection -/

theorem searchInLayer_length_le (dist : List ℚ → ℚ) (s : RagState) (layer : Int)
    (topK : Nat) (parentId : Option String) (now : Int) :
    (searchInLayer dist s layer topK parentId now).1.length ≤ topK := by
  simp only [searchInLayer, List.length_take]
  exact min_le_left _ _

/-- The first component of `searchInLayer` depends only on the table. -/
theorem searchInLayer_fst (dist : List ℚ → ℚ) (s : RagState) (layer : Int)
    (topK : Nat) (parentId : Option String) (now : Int) :
    (searchInLayer dist s layer topK parentId now).1
      = ((s.table.filter (layerFilter layer parentId)).insertionSort
          (fun a b => dist a.vector ≤ dist b.vector)).take topK := rfl

/-- Unfolding equation of `traverseLoop` at a layer with no results. -/
theorem traverseLoop_succ_empty (dist : List ℚ → ℚ) (fuel : Nat) (layer : Int)
    (parent : Option String) (now : Int) (s : RagState)
    (h : (searchInLayer dist s layer 3 parent now).1 = []) :
    traverseLoop dist (fuel + 1) layer parent now s
      = ([], (searchInLayer dist s layer 3 parent now).2) := by
  unfold traverseLoop
  rcases hg : searchInLayer dist s layer 3 parent now with ⟨res, s1⟩
  rw [hg] at h
  simp only at h
  subst h
  rfl

/-- Unfolding equation of `traverseLoop` at a layer with results: every
result of the layer is recorded and the single best match scopes the next
layer. -/
theorem traverseLoop_succ_cons (dist : List ℚ → ℚ) (fuel : Nat) (layer : Int)
    (parent : Option String) (now : Int) (s : RagState) (r : MemRow) (rs : List MemRow)
    (h : (searchInLayer dist s layer 3 parent now).1 = r :: rs) :
    traverseLoop dist (fuel + 1) layer parent now s
      = (((r :: rs).map (fun x => TraverseHit.mk x layer (calculateSimilarity (dist x.vector))))
          ++ (traverseLoop dist fuel (layer + 1) (some r.id) now
              (searchInLayer dist s layer 3 parent now).2).1,
         (traverseLoop dist fuel (layer + 1) (some r.id) now
              (searchInLayer dist s layer 3 parent now).2).2) := by
  rcases hg : searchInLayer dist s layer 3 parent now with ⟨res, s1⟩
  rw [hg] at h
  simp only at h
  subst h
  conv_lhs => unfold traverseLoop
  rw [hg]

theorem traverseLoop_length_le (dist : List ℚ → ℚ) (fuel : Nat) (layer : Int)
    (parent : Option String) (now : Int) (s : RagState) :
    (traverseLoop dist fuel layer parent now s).1.length ≤ 3 * fuel := by
  induction fuel generalizing layer parent s with
  | zero => simp [traverseLoop]
  | succ n ih =>
    cases hres : (searchInLayer dist s layer 3 parent now).1 with
    | nil =>
      rw [traverseLoop_succ_empty dist n layer parent now s hres]
      simp
    | cons r rs =>
      rw [traverseLoop_succ_cons dist n layer parent now s r rs hres]
      simp only [List.length_append, List.length_map]
      have h3 : (r :: rs).length ≤ 3 := by
        rw [← hres]
        exact searchInLayer_length_le dist s layer 3 parent now
      have h4 := ih (layer + 1) (some r.id) ((searchInLayer dist s layer 3 parent now).2)
      omega

/-- C3 counterexample: the claim says `traverseSearch` returns at most
`maxDepth` ranked results, but every layer contributes up to 3 results.  On
the reachable demonstration store (root plus two layer-1 children, each built
by `addNode`), `maxDepth = 2` already yields 5 results: the three table rows
for the root at layer 0 and the two children at layer 1. -/
theorem traverseSearch_maxDepth_counterexample :
    2 < (traverseSearch demoDist storeB 2 5).1.length := by decide

/-- C3 amended: `traverseSearch` returns at most `3 * maxDepth` ranked
results (up to `topK = 3` per layer over at most `min maxDepth maxLayers`
layers); it stops descending at the first layer whose search returns no
match, returning only the results accumulated before; and at each layer the
single best match becomes the scoping parent of the next layer. -/
theorem traverseSearch_amended (dist : List ℚ → ℚ) (s : RagState)
    (maxDepth : Int) (now : Int) :
    (traverseSearch dist s maxDepth now).1.length ≤ 3 * maxDepth.toNat
  ∧ (∀ fuel layer parent s0, (searchInLayer dist s0 layer 3 parent now).1 = [] →
      (traverseLoop dist (fuel + 1) layer parent now s0).1 = [])
  ∧ (∀ fuel layer parent s0 r rs,
      (searchInLayer dist s0 layer 3 parent now).1 = r :: rs →
      (traverseLoop dist (fuel + 1) layer parent now s0).1
        = ((r :: rs).map (fun x => TraverseHit.mk x layer (calculateSimilarity (dist x.vector))))
          ++ (traverseLoop dist fuel (layer + 1) (some r.id) now
              (searchInLayer dist s0 layer 3 parent now).2).1) := by
  refine ⟨?_, ?_, ?_⟩
  · unfold traverseSearch
    have h1 := traverseLoop_length_le dist (min maxDepth s.opts.maxLayers).toNat 0 none now s
    have h2 := min_le_left maxDepth s.opts.maxLayers
    omega
  · intro fuel layer parent s0 h
    rw [traverseLoop_succ_empty dist fuel layer parent now s0 h]
  · intro fuel layer parent s0 r rs h
    rw [traverseLoop_succ_cons dist fuel layer parent now s0 r rs h]

/-- Witness for C3: the amended bound and the early stop at a concrete empty
layer of the demonstration store. -/
theorem traverseSearch_amended_witness :
    (traverseSearch demoDist storeB 2 5).1.length ≤ 6
  ∧ (traverseLoop demoDist 1 7 none 5 storeB).1 = [] := by
  have h := traverseSearch_amended demoDist storeB 2 5
  exact ⟨by simpa using h.1, h.2.1 0 7 none storeB (by decide)⟩

/-! ## Claims C4 and C8: optimizer execution safety and the cache-only
delete -/

theorem cacheNode_table (s : RagState) (v : MemRow) :
    (cacheNode s v).table = s.table := rfl

theorem executeDeleteStep_root_eq (s : RagState) : executeDeleteStep s "root" = s := by
  simp [executeDeleteStep]

/-- Unfolding equation of `executeDeleteStep` when the target resolves. -/
theorem executeDeleteStep_found (s : RagState) (nid : String) (n : MemRow)
    (hroot : nid ≠ "root") (hg : (getNode s nid).1 = some n) :
    executeDeleteStep s nid =
      if 0 < n.childrenIds.length then (getNode s nid).2
      else { (getNode s nid).2 with cache := cacheErase (getNode s nid).2.cache nid } := by
  simp only [executeDeleteStep]
  rw [if_neg hroot, hg]

/-- Unfolding equation of `executeDeleteStep` when the target is missing. -/
theorem executeDeleteStep_missing (s : RagState) (nid : String)
    (hroot : nid ≠ "root") (hg : (getNode s nid).1 = none) :
    executeDeleteStep s nid = (getNode s nid).2 := by
  simp only [executeDeleteStep]
  rw [if_neg hroot, hg]

theorem executeDeleteStep_table (s : RagState) (nid : String) :
    (executeDeleteStep s nid).table = s.table := by
  by_cases h : nid = "root"
  · subst h
    rw [executeDeleteStep_root_eq]
  · cases hg : (getNode s nid).1 with
    | none =>
      rw [executeDeleteStep_missing s nid h hg]
      exact getNode_table s nid
    | some n =>
      rw [executeDeleteStep_found s nid n h hg]
      split_ifs
      · exact getNode_table s nid
      · show (getNode s nid).2.table = s.table
        exact getNode_table s nid

theorem executeDelete_table_all : ∀ (ids : List String) (s : RagState),
    (executeDelete s ids).table = s.table := by
  intro ids
  induction ids with
  | nil => intro s; rfl
  | cons x xs ih =>
    intro s
    show (executeDelete (executeDeleteStep s x) xs).table = s.table
    rw [ih, executeDeleteStep_table]

theorem executeDeleteStep_root_lookup (s : RagState) (nid : String) :
    cacheLookup (executeDeleteStep s nid).cache "root" = cacheLookup s.cache "root" := by
  by_cases h : nid = "root"
  · subst h
    rw [executeDeleteStep_root_eq]
  · cases hg : (getNode s nid).1 with
    | none =>
      rw [executeDeleteStep_missing s nid h hg]
      exact getNode_cacheLookup_ne s nid "root" (Ne.symm h)
    | some n =>
      rw [executeDeleteStep_found s nid n h hg]
      split_ifs
      · exact getNode_cacheLookup_ne s nid "root" (Ne.symm h)
      · show cacheLookup (cacheErase (getNode s nid).2.cache nid) "root"
            = cacheLookup s.cache "root"
        rw [cacheLookup_erase_ne _ nid "root" (Ne.symm h)]
        exact getNode_cacheLookup_ne s nid "root" (Ne.symm h)

theorem executeDelete_root_lookup_all : ∀ (ids : List String) (s : RagState),
    cacheLookup (executeDelete s ids).cache "root" = cacheLookup s.cache "root" := by
  intro ids
  induction ids with
  | nil => intro s; rfl
  | cons x xs ih =>
    intro s
    show cacheLookup (executeDelete (executeDeleteStep s x) xs).cache "root"
        = cacheLookup s.cache "root"
    rw [ih, executeDeleteStep_root_lookup]

/-- C4 counterexample: the LLM-generated candidate path maps the parsed model
output into proposals without validating the target-node count, so a model
answer proposing a `merge` with a single target becomes a proposed merge
operation with 1 target node. -/
theorem merge_proposal_arity_counterexample :
    ∃ op ∈ operationsFromParsed 4
        [{ opType := "merge", targetNodes := ["node_a"], reasoning := "why",
           expectedBenefit := "benefit" }],
      op.operationType = "merge" ∧ op.targetNodes.length < 2 := by decide

/-- C4 amended: the deterministic heuristic generator never proposes a merge
with fewer than 2 targets; a merge with fewer than 2 targets is never
executed (the store is returned unchanged); a selected `move_layer` is never
executed, only logged; `delete` never removes a table row, never touches the
root (whose cache entry survives every delete), and is skipped on a node
with a nonzero number of children (the node stays cached and in the table). -/
theorem optimizer_safety_amended :
    (∀ gs p, ∀ op ∈ heuristicOperationGroup gs p,
        op.operationType = "merge" → 2 ≤ op.targetNodes.length)
  ∧ (∀ cm s ids emb fid now, ids.length < 2 →
        executeMerge cm s ids emb fid now = Except.ok s)
  ∧ (∀ cm s op emb fid now, op.operationType = "move_layer" →
        executeOperation cm s op emb fid now = Except.ok s)
  ∧ (∀ s ids, (executeDelete s ids).table = s.table)
  ∧ (∀ s ids, cacheLookup (executeDelete s ids).cache "root" = cacheLookup s.cache "root")
  ∧ (∀ s nid n, nid ≠ "root" → (getNode s nid).1 = some n → n.childrenIds ≠ [] →
        (executeDelete s [nid]).table = s.table
        ∧ cacheLookup (executeDelete s [nid]).cache nid = some n) := by
  refine ⟨?_, ?_, ?_, ?_, ?_, ?_⟩
  · intro gs p op hop hm
    simp only [heuristicOperationGroup] at hop
    have hop2 := (List.take_sublist _ _).subset hop
    rcases List.mem_append.mp hop2 with hbase | hpad
    · by_cases h1 : p.type = "high_overlap" ∧ 2 ≤ p.nodes.length
      · rw [if_pos h1] at hbase
        simp only [List.mem_cons, List.not_mem_nil, or_false] at hbase
        rcases hbase with h | h | h | h <;> subst h <;> simp_all
      · rw [if_neg h1] at hbase
        by_cases h2 : p.type = "poor_context"
        · rw [if_pos h2] at hbase
          simp only [List.mem_cons, List.not_mem_nil, or_false] at hbase
          rcases hbase with h | h <;> subst h <;> simp at hm
        · rw [if_neg h2] at hbase
          by_cases h3 : p.type = "layer_imbalance"
          · rw [if_pos h3] at hbase
            simp only [List.mem_cons, List.not_mem_nil, or_false] at hbase
            rcases hbase with h | h <;> subst h <;> simp at hm
          · rw [if_neg h3] at hbase
            simp at hbase
    · have hpe := List.eq_of_mem_replicate hpad
      subst hpe
      simp at hm
  · intro cm s ids emb fid now h
    unfold executeMerge
    rw [if_pos h]
  · intro cm s op emb fid now h
    unfold executeOperation
    rw [h]
    simp
  · intro s ids
    exact executeDelete_table_all ids s
  · intro s ids
    exact executeDelete_root_lookup_all ids s
  · intro s nid n hroot hg hch
    refine ⟨executeDelete_table_all [nid] s, ?_⟩
    show cacheLookup (executeDeleteStep s nid).cache nid = some n
    rw [executeDeleteStep_found s nid n hroot hg, if_pos (List.length_pos.mpr hch)]
    exact getNode_caches s nid n hg

/-- Witness for C4: the merge guard and the skipped delete of the non-leaf
node `n1` of the demonstration store. -/
theorem optimizer_safety_amended_witness :
    executeMerge none demoState ["a"] [] "x" 0 = Except.ok demoState
  ∧ (executeDelete storeC ["n1"]).table = storeC.table
  ∧ cacheLookup (executeDelete storeC ["n1"]).cache "n1" = some n1WithChild := by
  refine ⟨optimizer_safety_amended.2.1 none demoState ["a"] [] "x" 0 (by decide), ?_, ?_⟩
  · exact (optimizer_safety_amended.2.2.2.2.2 storeC "n1" n1WithChild
      (by decide) rfl (by decide)).1
  · exact (optimizer_safety_amended.2.2.2.2.2 storeC "n1" n1WithChild
      (by decide) rfl (by decide)).2

/-- C8: executing a delete on a non-root leaf node only removes the cache
entry of that node: the persisted table is unchanged (all rows for the id
survive), every other cache key is untouched, and any subsequent vector
search over the store sees the same rows as before. -/
theorem executeDelete_leaf_cache_only (s : RagState) (nid : String) (n : MemRow)
    (hroot : nid ≠ "root") (hg : (getNode s nid).1 = some n)
    (hleaf : n.childrenIds = []) :
    (executeDelete s [nid]).table = s.table
  ∧ cacheLookup (executeDelete s [nid]).cache nid = none
  ∧ (∀ j, j ≠ nid → cacheLookup (executeDelete s [nid]).cache j = cacheLookup s.cache j)
  ∧ rowCountById (executeDelete s [nid]).table nid = rowCountById s.table nid
  ∧ (∀ dist layer topK parent now2,
      (searchInLayer dist (executeDelete s [nid]) layer topK parent now2).1
        = (searchInLayer dist s layer topK parent now2).1) := by
  have htab : (executeDelete s [nid]).table = s.table := executeDelete_table_all [nid] s
  have hleafn : ¬ 0 < n.childrenIds.length := by simp [hleaf]
  have heq : executeDeleteStep s nid =
      { (getNode s nid).2 with cache := cacheErase (getNode s nid).2.cache nid } := by
    rw [executeDeleteStep_found s nid n hroot hg, if_neg hleafn]
  have hstep : executeDelete s [nid] = executeDeleteStep s nid := rfl
  refine ⟨htab, ?_, ?_, by rw [htab], ?_⟩
  · rw [hstep, heq]
    show cacheLookup (cacheErase (getNode s nid).2.cache nid) nid = none
    exact cacheLookup_erase_self _ nid
  · intro j hj
    rw [hstep, heq]
    show cacheLookup (cacheErase (getNode s nid).2.cache nid) j = cacheLookup s.cache j
    rw [cacheLookup_erase_ne _ nid j hj]
    exact getNode_cacheLookup_ne s nid j hj
  · intro dist layer topK parent now2
    rw [searchInLayer_fst, searchInLayer_fst, htab]

/-- Witness for C8: deleting the leaf `n1` of the demonstration store leaves
the table unchanged and removes only the cache entry. -/
theorem executeDelete_leaf_cache_only_witness :
    (executeDelete storeA ["n1"]).table = storeA.table
  ∧ cacheLookup (executeDelete storeA ["n1"]).cache "n1" = none := by
  have h := executeDelete_leaf_cache_only storeA "n1"
    (mkInsertedNode demoState "alpha" "alpha context" 1 (some "root") [1] "n1" 1)
    (by decide) rfl rfl
  exact ⟨h.1, h.2.1⟩

/-! ## Claim C5: node updates append duplicate rows -/

theorem getNode_found_cases (s : RagState) (k : String) (n : MemRow)
    (h : (getNode s k).1 = some n) :
    cacheLookup s.cache k = some n ∨ findRowById s.table k = some n := by
  unfold getNode at h
  cases hc : cacheLookup s.cache k with
  | some m =>
    simp only [hc] at h
    exact Or.inl h
  | none =>
    cases hf : findRowById s.table k with
    | some r =>
      simp only [hc, hf] at h
      exact Or.inr h
    | none => simp [hc, hf] at h

theorem getNode_found_props (s : RagState) (k : String) (n : MemRow)
    (hwf : cacheWellFormed s) (h : (getNode s k).1 = some n) :
    n.id = k ∧ ∃ r ∈ s.table, r.id = k := by
  rcases getNode_found_cases s k n h with hc | hf
  · exact hwf k n hc
  · obtain ⟨hid, hmem⟩ := findRowById_eq_some hf
    exact ⟨hid, n, hmem, hid⟩

theorem rowCountById_append_one (t : List MemRow) (r : MemRow) (k : String)
    (h : r.id = k) : rowCountById (t ++ [r]) k = rowCountById t k + 1 := by
  unfold rowCountById
  rw [List.filter_append]
  simp [h]

theorem rowCountById_pos (t : List MemRow) (k : String) (r : MemRow)
    (hr : r ∈ t) (hid : r.id = k) : 1 ≤ rowCountById t k := by
  unfold rowCountById
  have hmem : r ∈ t.filter (fun x => decide (x.id = k)) :=
    List.mem_filter.mpr ⟨hr, by simp [hid]⟩
  exact List.length_pos.mpr (List.ne_nil_of_mem hmem)

/-- Unfolding equation of `updateAccessStats` when the node resolves. -/
theorem updateAccessStats_eq (s : RagState) (nid : String) (now : Int)
    (n : MemRow) (s1 : RagState) (h : getNode s nid = (some n, s1)) :
    updateAccessStats s nid now
      = { s1 with table := s1.table ++
          [{ n with lastAccessed := now, accessCount := n.accessCount + 1 }] } := by
  unfold updateAccessStats
  rw [h]

/-- C5: in a state whose cache is consistent with the table (as every
reachable state is), appending a child id to a parent via `addChildToParent`
and bumping access statistics via `updateAccessStats` both work by appending
a fresh row carrying the same node id, and the previous row is not removed:
afterwards the table holds more than one row for that id. -/
theorem update_appends_duplicate_row (s : RagState) (hwf : cacheWellFormed s) :
    (∀ pid cid now pn, (getNode s pid).1 = some pn → cid ∉ pn.childrenIds →
        1 < rowCountById (addChildToParent s pid cid now).table pid)
  ∧ (∀ nid now n, (getNode s nid).1 = some n →
        1 < rowCountById (updateAccessStats s nid now).table nid) := by
  constructor
  · intro pid cid now pn hg hcid
    obtain ⟨hid, r, hr, hrid⟩ := getNode_found_props s pid pn hwf hg
    have hpair : getNode s pid = (some pn, (getNode s pid).2) := by
      have heta : getNode s pid = ((getNode s pid).1, (getNode s pid).2) := rfl
      rw [heta, hg]
    rw [addChildToParent_eq s pid cid now pn _ hpair, if_neg hcid]
    have ht : (cacheNode { (getNode s pid).2 with table := (getNode s pid).2.table ++ [{ pn with childrenIds := pn.childrenIds ++ [cid], lastAccessed := now }] } { pn with childrenIds := pn.childrenIds ++ [cid] }).table = s.table ++ [{ pn with childrenIds := pn.childrenIds ++ [cid], lastAccessed := now }] := by
      rw [cacheNode_table]
      show (getNode s pid).2.table ++ _ = _
      rw [getNode_table]
    have happ := rowCountById_append_one s.table
      { pn with childrenIds := pn.childrenIds ++ [cid], lastAccessed := now } pid hid
    rw [ht, happ]
    have hpos := rowCountById_pos s.table pid r hr hrid
    omega
  · intro nid now n hg
    obtain ⟨hid, r, hr, hrid⟩ := getNode_found_props s nid n hwf hg
    have hpair : getNode s nid = (some n, (getNode s nid).2) := by
      have heta : getNode s nid = ((getNode s nid).1, (getNode s nid).2) := rfl
      rw [heta, hg]
    rw [updateAccessStats_eq s nid now n _ hpair]
    have ht : ({ (getNode s nid).2 with table := (getNode s nid).2.table ++ [{ n with lastAccessed := now, accessCount := n.accessCount + 1 }] }).table = s.table ++ [{ n with lastAccessed := now, accessCount := n.accessCount + 1 }] := by
      show (getNode s nid).2.table ++ _ = _
      rw [getNode_table]
    have happ := rowCountById_append_one s.table
      { n with lastAccessed := now, accessCount := n.accessCount + 1 } nid hid
    rw [ht, happ]
    have hpos := rowCountById_pos s.table nid r hr hrid
    omega

/-- Witness for C5: bumping the access statistics of the root of the
demonstration store leaves two rows with id `root` in the table. -/
theorem update_appends_duplicate_row_witness :
    1 < rowCountById (updateAccessStats demoState "root" 9).table "root" :=
  (update_appends_duplicate_row demoState (fun _ _ hkn => nomatch hkn)).2 "root" 9 demoRoot rfl

/-! ## Claim C7: a cycle of an agent constructed with thinking probability 0 -/

/-- C7 (code bug): the constructor reads
`options.thinkingProbability || 0.05`, so an explicit 0 is falsy and the
effective thinking probability of an agent constructed with 0 is 0.05 — not
0.  Consequently a cycle with an empty event queue and no implicit triggers
can still draw below 0.05 and run autonomous thinking: with one buffered
low-importance item and a dialectic topic, `getRecent` bumps the access
counter of the buffered item — a WorkingMemory mutation — even though the
decision is still `wait`.  The theorem evaluates the modelled cycle at that
failing input, for every behaviour of the LLM-driven continuations. -/
theorem agent_cycle_thinking_probability_bug :
    (mkAgentConfig none (some 0)).thinkingProbability = 1/20
  ∧ ∀ (deep : WMState → WMState × Option Orientation)
      (orientObserved : AgentState → List ObsRec → AgentState × Option Orientation)
      (decideOriented : AgentState → Orientation → AgentState × Decision)
      (actNonWait : AgentState → Decision → AgentState),
      (oodaCycle deep orientObserved decideOriented actNonWait 100 (1/100) 4 c7State).2
          = Decision.wait
      ∧ (oodaCycle deep orientObserved decideOriented actNonWait 100 (1/100) 4
            c7State).1.wm.items = [c7ItemBumped]
      ∧ [c7ItemBumped] ≠ c7State.wm.items := by
  refine ⟨rfl, ?_⟩
  intro deep orientObserved decideOriented actNonWait
  have hlt : (1 : ℚ)/100 < c7State.config.thinkingProbability := by
    have hcfg : c7State.config.thinkingProbability = 1/20 := rfl
    rw [hcfg]
    norm_num
  have hobs : observe 100 c7State = ([], c7State) := rfl
  have hor : orientPhase deep orientObserved 100 (1/100) 4 c7State []
      = autonomousThinking deep 100 4 c7State := by
    simp only [orientPhase]
    rw [if_pos hlt]
  have haut : autonomousThinking deep 100 4 c7State = (c7StateAfter, none) := rfl
  have hcycle : oodaCycle deep orientObserved decideOriented actNonWait 100 (1/100) 4 c7State
      = (c7StateAfter, Decision.wait) := by
    simp only [oodaCycle, hobs, hor, haut, decidePhase, actPhase]
  refine ⟨by rw [hcycle], by rw [hcycle]; rfl, ?_⟩
  intro h
  have h2 := congrArg (fun l => (l.headD c7ItemBumped).accessCount) h
  simp [c7ItemBumped, c7State, c7Item] at h2

/-! ## Claim C9: group-relative advantages -/

theorem list_sum_sq_zero {l : List ℝ} (hnn : ∀ x ∈ l, 0 ≤ x) (hsum : l.sum = 0) :
    ∀ x ∈ l, x = 0 := by
  induction l with
  | nil => simp
  | cons a t ih =>
    simp only [List.sum_cons] at hsum
    have ha : 0 ≤ a := hnn a (by simp)
    have ht : 0 ≤ t.sum := List.sum_nonneg (fun x hx => hnn x (by simp [hx]))
    have ha0 : a = 0 := by linarith
    have hts : t.sum = 0 := by linarith
    intro x hx
    rcases List.mem_cons.mp hx with h | h
    · rw [h, ha0]
    · exact ih (fun y hy => hnn y (by simp [hy])) hts x h

theorem groupMean_of_all_eq {rs : List ℝ} (hne : rs ≠ []) (a : ℝ)
    (h : ∀ x ∈ rs, x = a) : groupMean rs = a := by
  have hrep : rs = List.replicate rs.length a := List.eq_replicate_of_mem h
  unfold groupMean
  rw [hrep]
  simp only [List.sum_replicate, List.length_replicate]
  rw [nsmul_eq_mul]
  have hn : (rs.length : ℝ) ≠ 0 := by
    have := List.length_pos.mpr hne
    exact_mod_cast Nat.pos_iff_ne_zero.mp this
  field_simp

theorem groupVariance_zero_of_all_eq {rs : List ℝ} (hne : rs ≠ [])
    (hall : ∀ x ∈ rs, ∀ y ∈ rs, x = y) : groupVariance rs = 0 := by
  obtain ⟨a, t, rfl⟩ : ∃ a t, rs = a :: t := by
    cases rs with
    | nil => exact absurd rfl hne
    | cons a t => exact ⟨a, t, rfl⟩
  have h : ∀ x ∈ a :: t, x = a := fun x hx => hall x hx a (by simp)
  have hm := groupMean_of_all_eq hne a h
  unfold groupVariance
  have hz : ((a :: t).map fun r => (r - groupMean (a :: t)) ^ 2).sum = 0 := by
    apply List.sum_eq_zero
    intro y hy
    obtain ⟨r, hr, rfl⟩ := List.mem_map.mp hy
    rw [h r hr, hm]
    ring
  rw [hz, zero_div]

theorem all_eq_of_groupVariance_zero {rs : List ℝ} (hne : rs ≠ [])
    (h0 : groupVariance rs = 0) : ∀ x ∈ rs, ∀ y ∈ rs, x = y := by
  have hlen : (0 : ℝ) < rs.length := by
    have := List.length_pos.mpr hne
    exact_mod_cast this
  unfold groupVariance at h0
  rw [div_eq_zero_iff] at h0
  rcases h0 with hs | hl
  · have hz := list_sum_sq_zero
      (l := rs.map fun r => (r - groupMean rs) ^ 2)
      (fun y hy => by
        obtain ⟨r, hr, rfl⟩ := List.mem_map.mp hy
        positivity) hs
    have hxm : ∀ x ∈ rs, x = groupMean rs := by
      intro x hx
      have h1 := hz ((x - groupMean rs) ^ 2) (List.mem_map_of_mem _ hx)
      have h2 := pow_eq_zero_iff (two_ne_zero) |>.mp h1
      have h3 := sub_eq_zero.mp h2
      exact h3
    intro x hx y hy
    rw [hxm x hx, hxm y hy]
  · exact absurd hl (ne_of_gt hlen)

theorem groupVariance_nonneg (rs : List ℝ) : 0 ≤ groupVariance rs := by
  unfold groupVariance
  apply div_nonneg
  · apply List.sum_nonneg
    intro y hy
    obtain ⟨r, hr, rfl⟩ := List.mem_map.mp hy
    positivity
  · exact Nat.cast_nonneg _

/-- C9: for a non-empty candidate group with all rewards equal, the standard
deviation is 0 and the group-relative advantages are the all-zero vector;
otherwise the standard deviation is nonzero and each advantage is the
z-score of that reward against the group mean and standard deviation. -/
theorem groupAdvantages_spec (rs : List ℝ) (hne : rs ≠ []) :
    ((∀ x ∈ rs, ∀ y ∈ rs, x = y) →
        computeGroupAdvantages rs = rs.map (fun _ => 0))
  ∧ ((∃ x ∈ rs, ∃ y ∈ rs, x ≠ y) →
        Real.sqrt (groupVariance rs) ≠ 0
        ∧ computeGroupAdvantages rs
            = rs.map (fun r => (r - groupMean rs) / Real.sqrt (groupVariance rs))) := by
  constructor
  · intro hall
    have hvar := groupVariance_zero_of_all_eq hne hall
    unfold computeGroupAdvantages
    rw [if_neg hne, if_pos (by rw [hvar, Real.sqrt_zero])]
  · rintro ⟨x, hx, y, hy, hxy⟩
    have hvar : groupVariance rs ≠ 0 := by
      intro h0
      exact hxy (all_eq_of_groupVariance_zero hne h0 x hx y hy)
    have hsq : Real.sqrt (groupVariance rs) ≠ 0 := by
      rw [Ne, Real.sqrt_eq_zero (groupVariance_nonneg rs)]
      exact hvar
    refine ⟨hsq, ?_⟩
    unfold computeGroupAdvantages
    rw [if_neg hne, if_neg hsq]

/-- Witness for C9: the identical-rewards group `[1, 1]` gets the all-zero
advantage vector. -/
theorem groupAdvantages_spec_witness :
    computeGroupAdvantages [(1 : ℝ), 1] = [0, 0] := by
  have h := (groupAdvantages_spec [(1 : ℝ), 1] (by simp)).1 (by
    intro x hx y hy
    simp only [List.mem_cons, List.not_mem_nil, or_false, or_self] at hx hy
    rw [hx, hy])
  simpa using h

/-! ## Claim C10: ExperienceLibrary serialization round trip -/

/-- C10: `fromJSON` applied to `toJSON` of any library reproduces the
experience records exactly, confidences included. -/
theorem experienceLibrary_roundTrip (lib : ExperienceLibrary) :
    (ExperienceLibrary.fromJSON (some lib.toJSON)).experiences = lib.experiences
  ∧ (ExperienceLibrary.fromJSON (some lib.toJSON)).experiences.map Experience.confidence
      = lib.experiences.map Experience.confidence := ⟨rfl, rfl⟩

end Clippy
